import Mathlib

/-!
Shallow embedding of the scrape-to-tidy-table pipeline of `src/app3.py`:
the table extractor `get_stock_financials`, the JSON boundary
`convert_to_dataframe`, and the normalizer `processed_dataframe` with its
inner `clean_date`.  The JSON serialization between the two stages
(`json.dumps` / `json.loads`) is a lossless round trip of the record list,
so the boundary type here is the record list itself.
-/

/-- A calendar date, as produced by `pandas.Timestamp.date()`. -/
structure Date where
  year : Nat
  month : Nat
  day : Nat
deriving DecidableEq, Repr

/-- One `tr` of the scraped HTML table: the stripped texts of its `th`
cells and of its `td` cells, mirroring `row.find_all("th")` and
`row.find_all("td")` followed by `get_text(strip=True)`. -/
structure HtmlRow where
  th : List String
  td : List String
deriving DecidableEq, Repr

/-- The fetched page, reduced to what `get_stock_financials` reads from the
parsed HTML: the first `table` element as its list of `tr` rows (`none`
when the page body has no table element) and the optional currency/units
`div` text. -/
structure RawPage where
  table : Option (List HtmlRow)
  currency : Option String
deriving DecidableEq, Repr

/-- One entry of `transposed_data` in `get_stock_financials`: the dict
with key `"Header"` holding `headers[col_idx]` and keys `"Row 1"` to
`"Row N"` holding `data[i][col_idx]`; the ordered `"Row i"` fields are
kept as the list `values`. -/
structure TransposedRecord where
  header : String
  values : List String
deriving DecidableEq, Repr

/-- Failure modes of the fetch step (`requests.get` plus
`raise_for_status`); each is logged and makes the function return a bare
`None`. -/
inductive FetchError where
  | networkError
  | httpError (status : Nat)
deriving DecidableEq, Repr

/-- Failure modes raised inside the table-processing `try` block of
`get_stock_financials`; each is logged and turned into a bare `None`
return by the `except` clause.  `malformedTable` covers the `IndexError`
raised when the transposition loop indexes past the end of a row. -/
inductive ExtractError where
  | noTableFound
  | insufficientData
  | malformedTable
deriving DecidableEq, Repr

/-- Failure modes raised inside `processed_dataframe` and
`convert_to_dataframe`; each is logged and turned into a `None` return. -/
inductive NormalizeError where
  | emptyOrInvalid
  | missingColumns (names : List String)
deriving DecidableEq, Repr

/-- The values `data[0][c], ..., data[N-1][c]` of column `c`, or `none`
when some retained row is too short, in which case Python raises
`IndexError` (caught by the enclosing `except`). -/
def columnAt : List (List String) → Nat → Option (List String)
  | [], _ => some []
  | r :: rs, c =>
    match r.get? c, columnAt rs c with
    | some v, some vs => some (v :: vs)
    | _, _ => none

/-- Builds one `TransposedRecord` per column index in `cs`. -/
def buildRecords (headers : List String) (data : List (List String)) :
    List Nat → Option (List TransposedRecord)
  | [] => some []
  | c :: cs =>
    match columnAt data c, buildRecords headers data cs with
    | some vs, some recs => some (⟨headers.getD c "", vs⟩ :: recs)
    | _, _ => none

/-- The transposition loop `for col_idx in range(num_columns)` of
`get_stock_financials`. -/
def transposeData (headers : List String) (data : List (List String)) :
    Option (List TransposedRecord) :=
  buildRecords headers data (List.range headers.length)

/-- The data rows retained from `rows[2:]`: a row is kept exactly when its
`td` cell count equals the header count (`len(cells) == len(headers)`). -/
def keptRows (headers : List String) (rest : List HtmlRow) : List (List String) :=
  (rest.map (fun r => r.td)).filter (fun cells => cells.length == headers.length)

/-- The `data` list of `get_stock_financials` just before transposition:
the retained rows, with `additional_row` (the second header row) inserted
in front whenever it is non-empty — with no width check on it. -/
def tableData (headers additional : List String) (rest : List HtmlRow) :
    List (List String) :=
  if additional.isEmpty then keptRows headers rest else additional :: keptRows headers rest

/-- The table-processing part of `get_stock_financials`, with raised
exceptions made explicit as `Except` errors. -/
def extractE (page : RawPage) : Except ExtractError (List TransposedRecord × Option String) :=
  match page.table with
  | none => .error .noTableFound
  | some rows =>
    match rows with
    | [] => .error .insufficientData
    | [_] => .error .insufficientData
    | row0 :: row1 :: rest =>
      let headers := row0.th
      let additional := row1.th
      match transposeData headers (tableData headers additional rest) with
      | none => .error .malformedTable
      | some recs => .ok (recs, page.currency)

/-- `get_stock_financials` itself: a fetch failure or any exception inside
the processing `try` block returns a bare `None`; success returns the pair
of the (losslessly serialized) record list and the currency element. -/
def get_stock_financials (fetched : Except FetchError RawPage) :
    Option (List TransposedRecord × Option String) :=
  match fetched with
  | .error _ => none
  | .ok page => (extractE page).toOption

/-- The `data` list that `get_stock_financials` transposes for a given
page, exposed for stating which rows may contribute values. -/
def pageData (page : RawPage) : List (List String) :=
  match page.table with
  | some (row0 :: row1 :: rest) => tableData row0.th row1.th rest
  | _ => []

/-- The digit value of an ASCII digit character. -/
def digitVal (c : Char) : Nat := c.toNat - 48

/-- `re.search` of the pattern of four consecutive digits (the raw pattern
backslash-d four times used for `Year`): the value of the leftmost run of
four digits, scanning positions left to right. -/
def findYear : List Char → Option Nat
  | [] => none
  | c1 :: rest =>
    match rest with
    | c2 :: c3 :: c4 :: _ =>
      if c1.isDigit ∧ c2.isDigit ∧ c3.isDigit ∧ c4.isDigit then
        some (((digitVal c1 * 10 + digitVal c2) * 10 + digitVal c3) * 10 + digitVal c4)
      else findYear rest
    | _ => none

/-- `re.search` of the `Quarter` pattern (an optional literal `Q` followed
by one digit, the digit captured): at each position, `Q` followed by a
digit matches and captures the digit; otherwise a bare digit matches and
captures itself; otherwise the scan advances one position. -/
def findQuarter : List Char → Option Nat
  | [] => none
  | c :: rest =>
    if c = 'Q' then
      match rest with
      | c2 :: _ => if c2.isDigit then some (digitVal c2) else findQuarter rest
      | [] => none
    else if c.isDigit then some (digitVal c) else findQuarter rest

/-- The `Year` column: `str.extract` of the four-digit pattern, then
`fillna(0).astype(int)`. -/
def yearOf (s : String) : Nat := (findYear s.data).getD 0

/-- The `Quarter` column: the literal `Q` prepended to the extracted digit
after `fillna(0).astype(int).astype(str)`. -/
def quarterField (s : String) : String := "Q" ++ toString ((findQuarter s.data).getD 0)

/-- The apostrophe character used by `clean_date`. -/
def apos : Char := '\x27'

/-- Whitespace stripping of `str.strip()` on both ends. -/
def stripChars (l : List Char) : List Char :=
  ((l.dropWhile Char.isWhitespace).reverse.dropWhile Char.isWhitespace).reverse

/-- The characters after the last apostrophe of `l` (the whole list when
there is none), matching `date_string.split(chr(39))[-1]`. -/
def afterLastApos (l : List Char) : List Char :=
  ((l.reverse.takeWhile (fun c => c ≠ apos)).reverse)

/-- The string handed to the date parser by `clean_date`: when the value
contains an apostrophe, only the substring after the last apostrophe is
kept; otherwise the value is passed through unchanged. -/
def dateResidual (s : String) : String :=
  if s.data.contains apos then String.mk (afterLastApos s.data) else s

/-- Token split on spaces and commas, as the date parser tokenizes
month-day-year strings. -/
def splitTokensAux (acc : List Char) : List Char → List (List Char)
  | [] => if acc.isEmpty then [] else [acc.reverse]
  | c :: rest =>
    if c = ' ' ∨ c = ',' then
      if acc.isEmpty then splitTokensAux [] rest
      else acc.reverse :: splitTokensAux [] rest
    else splitTokensAux (c :: acc) rest

/-- Tokens of a candidate date string. -/
def splitTokens (l : List Char) : List (List Char) := splitTokensAux [] l

/-- English month name (full or three-letter abbreviation,
case-insensitive) to month number. -/
def monthOf (t : List Char) : Option Nat :=
  let l := t.map Char.toLower
  if l = ['j','a','n'] ∨ l = ['j','a','n','u','a','r','y'] then some 1
  else if l = ['f','e','b'] ∨ l = ['f','e','b','r','u','a','r','y'] then some 2
  else if l = ['m','a','r'] ∨ l = ['m','a','r','c','h'] then some 3
  else if l = ['a','p','r'] ∨ l = ['a','p','r','i','l'] then some 4
  else if l = ['m','a','y'] then some 5
  else if l = ['j','u','n'] ∨ l = ['j','u','n','e'] then some 6
  else if l = ['j','u','l'] ∨ l = ['j','u','l','y'] then some 7
  else if l = ['a','u','g'] ∨ l = ['a','u','g','u','s','t'] then some 8
  else if l = ['s','e','p'] ∨ l = ['s','e','p','t','e','m','b','e','r'] then some 9
  else if l = ['o','c','t'] ∨ l = ['o','c','t','o','b','e','r'] then some 10
  else if l = ['n','o','v'] ∨ l = ['n','o','v','e','m','b','e','r'] then some 11
  else if l = ['d','e','c'] ∨ l = ['d','e','c','e','m','b','e','r'] then some 12
  else none

/-- Numeric value of a digit run. -/
def natOfDigits (l : List Char) : Nat := l.foldl (fun a c => a * 10 + digitVal c) 0

/-- Model of `pandas.to_datetime(s, errors=coerce).date()` restricted to
the month-day-year token format the scraped site uses (`Mon D, YYYY`,
also with a full month name): exactly three tokens — a month name, a one-
or two-digit day between 1 and 31, and a four-digit year.  Anything else
(in particular a string with extra non-date tokens, which the underlying
non-fuzzy parser rejects) parses to `none`, never raising. -/
def parseDateChars (l : List Char) : Option Date :=
  match splitTokens l with
  | [m, d, y] =>
    match monthOf m with
    | none => none
    | some mo =>
      if (∀ c ∈ d, c.isDigit) ∧ 1 ≤ d.length ∧ d.length ≤ 2 ∧
         (∀ c ∈ y, c.isDigit) ∧ y.length = 4 ∧
         1 ≤ natOfDigits d ∧ natOfDigits d ≤ 31 then
        some ⟨natOfDigits y, mo, natOfDigits d⟩
      else none
  | _ => none

/-- The inner `clean_date` of `processed_dataframe`: strip everything up
to and including the last apostrophe when one is present, then strip
whitespace and parse, with parse failure degrading to `none`
(`errors=coerce`) instead of raising. -/
def clean_date (s : String) : Option Date :=
  parseDateChars (stripChars (dateResidual s).data)

/-- Zero-padded decimal rendering. -/
def padNum (width n : Nat) : String :=
  String.mk (List.replicate (width - (toString n).length) '0') ++ toString n

/-- ISO serialization of a date, as `datetime.date` prints. -/
def dateToISO (d : Date) : String :=
  padNum 4 d.year ++ "-" ++ padNum 2 d.month ++ "-" ++ padNum 2 d.day

/-- One row of the final tidy DataFrame: the cleaned reporting date, the
selected metric values (kept as raw strings), and the derived year and
quarter fields. -/
structure TidyRow where
  periodEnding : Option Date
  revenue : String
  netIncome : String
  extraValues : List String
  year : Nat
  quarter : String
deriving DecidableEq, Repr

/-- The pivot at the top of `processed_dataframe`: the first record
becomes the header row (`stock_info_df.columns = stock_info_df.iloc[0]`)
and every later record becomes a data row (`stock_info_df[1:]`), each
record read as its `Header` value followed by its `Row i` values.  `none`
when the record list is empty (the empty-DataFrame guard). -/
def pivotOf (recs : List TransposedRecord) :
    Option (List String × List (List String)) :=
  match recs with
  | [] => none
  | r0 :: rest =>
    some (r0.header :: r0.values, rest.map (fun r => r.header :: r.values))

/-- The required column list `required_columns` of `processed_dataframe`. -/
def requiredColumns (columns : List String) : List String :=
  ["Fiscal Quarter", "Period Ending", "Revenue", "Net Income"] ++ columns

/-- Value of the column named `name` in a pivoted data row: the cell at
the first position of `name` among the column names. -/
def lookupCell (cols row : List String) (name : String) : String :=
  (row.get? (cols.indexOf name)).getD ""

/-- One normalized row of `processed_dataframe`: the selected metric
columns, the derived `Year` and `Quarter` from the `Fiscal Quarter` cell
(which is then dropped), and the cleaned `Period Ending` date. -/
def mkRow (cols extras row : List String) : TidyRow :=
  { periodEnding := clean_date (lookupCell cols row "Period Ending")
    revenue := lookupCell cols row "Revenue"
    netIncome := lookupCell cols row "Net Income"
    extraValues := extras.map (lookupCell cols row)
    year := yearOf (lookupCell cols row "Fiscal Quarter")
    quarter := quarterField (lookupCell cols row "Fiscal Quarter") }

/-- `processed_dataframe`: pivot, check required columns, derive fields,
clean dates, truncate to the first 8 rows.  Every raised `ValueError`
becomes an explicit error (the function then returns `None`). -/
def processed_dataframe (recs : List TransposedRecord) (columns : List String) :
    Except NormalizeError (List TidyRow) :=
  match pivotOf recs with
  | none => .error .emptyOrInvalid
  | some (cols, rows) =>
    match (requiredColumns columns).filter (fun c => !(cols.contains c)) with
    | [] => .ok ((rows.map (mkRow cols columns)).take 8)
    | m :: ms => .error (.missingColumns (m :: ms))

/-- The full extract-then-normalize pipeline as the app wires it: unpack
the extractor result, feed the record list and the selected extra columns
to `processed_dataframe`, with `None` on any failure. -/
def pipeline (fetched : Except FetchError RawPage) (columns : List String) :
    Option (List TidyRow) :=
  match get_stock_financials fetched with
  | none => none
  | some (recs, _) => (processed_dataframe recs columns).toOption

/-- Convenience constructor for a page whose table has a first header row,
a second header row, and trailing data rows. -/
def mkPage (headers secondary : List String) (dataRows : List (List String))
    (currency : Option String) : RawPage :=
  ⟨some (⟨headers, []⟩ :: ⟨secondary, []⟩ :: dataRows.map (fun r => ⟨[], r⟩)), currency⟩

/-! ## Helper lemmas -/

lemma findYear_eq_none : ∀ (l : List Char), (∀ c ∈ l, ¬ c.isDigit) → findYear l = none
  | [], _ => rfl
  | [_], _ => rfl
  | [_, _], _ => rfl
  | [_, _, _], _ => rfl
  | c1 :: c2 :: c3 :: c4 :: r, h => by
    have h1 : ¬ c1.isDigit := h c1 (by simp)
    have ih := findYear_eq_none (c2 :: c3 :: c4 :: r)
      (fun c hc => h c (by simp only [List.mem_cons] at hc ⊢; tauto))
    have hred : findYear (c1 :: c2 :: c3 :: c4 :: r) =
        if c1.isDigit ∧ c2.isDigit ∧ c3.isDigit ∧ c4.isDigit then
          some (((digitVal c1 * 10 + digitVal c2) * 10 + digitVal c3) * 10 + digitVal c4)
        else findYear (c2 :: c3 :: c4 :: r) := rfl
    rw [hred, if_neg (fun hcon => h1 hcon.1)]
    exact ih

lemma findQuarter_eq_none : ∀ (l : List Char), (∀ c ∈ l, ¬ c.isDigit) → findQuarter l = none
  | [], _ => rfl
  | c :: rest, h => by
    have hc : ¬ c.isDigit := h c (by simp)
    have ih := findQuarter_eq_none rest (fun x hx => h x (by simp [hx]))
    by_cases hq : c = 'Q'
    · cases rest with
      | nil =>
        have hred : findQuarter [c] =
            if c = 'Q' then none
            else if c.isDigit then some (digitVal c) else findQuarter [] := rfl
        rw [hred, if_pos hq]
      | cons c2 r2 =>
        have hc2 : ¬ c2.isDigit := h c2 (by simp)
        have hred : findQuarter (c :: c2 :: r2) =
            if c = 'Q' then
              (if c2.isDigit then some (digitVal c2) else findQuarter (c2 :: r2))
            else if c.isDigit then some (digitVal c) else findQuarter (c2 :: r2) := rfl
        rw [hred, if_pos hq, if_neg hc2]
        exact ih
    · cases rest with
      | nil =>
        have hred : findQuarter [c] =
            if c = 'Q' then none
            else if c.isDigit then some (digitVal c) else findQuarter [] := rfl
        rw [hred, if_neg hq, if_neg hc]
        exact ih
      | cons c2 r2 =>
        have hred : findQuarter (c :: c2 :: r2) =
            if c = 'Q' then
              (if c2.isDigit then some (digitVal c2) else findQuarter (c2 :: r2))
            else if c.isDigit then some (digitVal c) else findQuarter (c2 :: r2) := rfl
        rw [hred, if_neg hq, if_neg hc]
        exact ih

/-! ## C9: no table element means a NoTableFound failure -/

/-- C9: for every page body containing no table element, extraction fails
with the no-table error, and `get_stock_financials` signals the failure
(a bare `None`), never a null or empty success pair. -/
theorem c9_no_table :
    ∀ page : RawPage, page.table = none →
      extractE page = .error .noTableFound ∧ get_stock_financials (.ok page) = none := by
  intro page h
  refine ⟨by simp [extractE, h], ?_⟩
  simp [get_stock_financials, extractE, h, Except.toOption]

theorem c9_witness :
    extractE ⟨none, none⟩ = .error .noTableFound ∧
      get_stock_financials (.ok ⟨none, none⟩) = none :=
  c9_no_table ⟨none, none⟩ rfl

/-! ## C10: result shape of the fetch-and-extract operation -/

/-- C10: `get_stock_financials` returns a bare `None` on every fetch
failure and on every extraction failure, and returns the success pair
exactly when extraction succeeds, so unpacking the result into two values
succeeds only on the success path. -/
theorem c10_result_shape :
    ∀ fetched : Except FetchError RawPage,
      (∀ e, fetched = .error e → get_stock_financials fetched = none) ∧
      (∀ page, fetched = .ok page →
        ((∃ err, extractE page = .error err) → get_stock_financials fetched = none) ∧
        (∀ x, extractE page = .ok x → get_stock_financials fetched = some x)) := by
  intro fetched
  constructor
  · rintro e rfl; rfl
  · rintro page rfl
    constructor
    · rintro ⟨err, herr⟩
      simp [get_stock_financials, herr, Except.toOption]
    · intro x hx
      simp [get_stock_financials, hx, Except.toOption]

theorem c10_witness : get_stock_financials (.error .networkError) = none :=
  (c10_result_shape (.error .networkError)).1 .networkError rfl

/-! ## C2: year and quarter decomposition -/

/-- C2 counterexample: on the input `2023 Q3` the quarter regex captures
the first digit of the year, producing `Q2`, not the claimed `Q3`. -/
theorem c2_counterexample :
    quarterField "2023 Q3" = "Q2" ∧ ("Q2" : String) ≠ "Q3" := by
  refine ⟨by decide, by decide⟩

/-- C2 amended: the decomposition is deterministic with `2023 Q3` giving
year 2023 and quarter `Q2` (the first digit of the string, since the
optional-Q-then-digit pattern matches there first), `Q2 2024` giving year
2024 and quarter `Q2`, and any digit-free string giving year 0 and
quarter `Q0`. -/
theorem c2_year_quarter :
    yearOf "2023 Q3" = 2023 ∧ quarterField "2023 Q3" = "Q2" ∧
    yearOf "Q2 2024" = 2024 ∧ quarterField "Q2 2024" = "Q2" ∧
    ∀ s : String, (∀ c ∈ s.data, ¬ c.isDigit) → yearOf s = 0 ∧ quarterField s = "Q0" := by
  refine ⟨by decide, by decide, by decide, by decide, ?_⟩
  intro s h
  constructor
  · simp [yearOf, findYear_eq_none s.data h]
  · rw [quarterField, findQuarter_eq_none s.data h]
    rfl

theorem c2_witness : yearOf "NA" = 0 ∧ quarterField "NA" = "Q0" :=
  c2_year_quarter.2.2.2.2 "NA" (by decide)

/-! ## C1: end-to-end scenario -/

/-- The end-to-end input exactly as the claim states it: metric names as
the first header row, the date in the secondary header row, and one data
row of period label and values. -/
def c1Page : RawPage :=
  mkPage ["Fiscal Quarter", "Period Ending", "Revenue", "Net Income"]
    ["", "Dec 31, 2023", "", ""] [["Q4 2023", "Reported", "500", "50"]] none

/-- The same facts laid out as the scraped site lays them out: fiscal
periods across the first header row, period-ending dates in the secondary
header row, and one metric per data row. -/
def c1PageT : RawPage :=
  mkPage ["Fiscal Quarter", "Q4 2023"] ["Period Ending", "Dec 31, 2023"]
    [["Revenue", "500"], ["Net Income", "50"]] none

/-- C1 counterexample: on the claim's input the pipeline does not yield
the claimed row — the pivot takes the first transposed record (the
Fiscal Quarter column) as the header row, so the pivoted columns are
`Fiscal Quarter`, the empty string and `Q4 2023`, the required columns
check fails, and the whole run degrades to `none`. -/
theorem c1_counterexample :
    pipeline (.ok c1Page) [] = none ∧
    pipeline (.ok c1Page) [] ≠ some [⟨some ⟨2023, 12, 31⟩, "500", "50", [], 2023, "Q4"⟩] ∧
    processed_dataframe
      [⟨"Fiscal Quarter", ["", "Q4 2023"]⟩,
       ⟨"Period Ending", ["Dec 31, 2023", "Reported"]⟩,
       ⟨"Revenue", ["", "500"]⟩,
       ⟨"Net Income", ["", "50"]⟩] [] =
      .error (.missingColumns ["Period Ending", "Revenue", "Net Income"]) := by
  refine ⟨by decide, by decide, by rfl⟩

/-- C1 amended: with the same facts in the source's column-major layout
(periods as headers, dates in the secondary row, one metric per data
row), the pipeline yields exactly one tidy row with year 2023, quarter
`Q4`, period ending December 31 2023 (serialized `2023-12-31`), revenue
`500` and net income `50`; the claim's row-major layout instead aborts on
the required-columns check. -/
theorem c1_end_to_end :
    pipeline (.ok c1PageT) [] =
      some [⟨some ⟨2023, 12, 31⟩, "500", "50", [], 2023, "Q4"⟩] ∧
    dateToISO ⟨2023, 12, 31⟩ = "2023-12-31" := by
  refine ⟨by decide, by decide⟩

/-! ## C3: date cleaning -/

/-- The abbreviated-year string FY-apostrophe-24. -/
def fy24 : String := String.mk ['F', 'Y', apos, '2', '4']

/-- C3 counterexample: `clean_date` performs no month-day-year pattern
search — the surrounding text is kept, the parser rejects the whole
string, and the value degrades to `none` instead of the claimed date
March 31 2024. -/
theorem c3_counterexample :
    clean_date "Reported Mar 31, 2024 (Q1)" = none ∧
    clean_date "Reported Mar 31, 2024 (Q1)" ≠ some ⟨2024, 3, 31⟩ := by
  refine ⟨by decide, by decide⟩

/-- C3 amended: for a value containing an apostrophe only the substring
after the last apostrophe reaches the parser (and parsing is total, so it
never throws); for a value without an apostrophe the whole string is
passed to the parser unchanged, so the embedded-date string above parses
to `none` while the bare `Mar 31, 2024` parses to March 31 2024,
serializable as `2024-03-31`. -/
theorem c3_date_cleaning :
    dateResidual fy24 = "24" ∧
    clean_date fy24 = parseDateChars (stripChars "24".data) ∧
    dateResidual "Reported Mar 31, 2024 (Q1)" = "Reported Mar 31, 2024 (Q1)" ∧
    clean_date "Reported Mar 31, 2024 (Q1)" = none ∧
    clean_date "Mar 31, 2024" = some ⟨2024, 3, 31⟩ ∧
    dateToISO ⟨2024, 3, 31⟩ = "2024-03-31" := by
  refine ⟨by decide, by decide, by decide, by decide, by decide, by decide⟩

/-! ## Normalizer helper lemmas -/

lemma contains_true_of_mem {l : List String} {a : String} (h : a ∈ l) :
    l.contains a = true := by
  simpa [List.contains, List.elem_iff] using h

lemma contains_false_of_not_mem {l : List String} {a : String} (h : a ∉ l) :
    l.contains a = false := by
  cases hc : l.contains a
  · rfl
  · exact absurd (by simpa [List.contains, List.elem_iff] using hc) h

/-- When every required column occurs among the pivoted column names,
`processed_dataframe` succeeds and returns the first 8 normalized rows,
whatever the cell contents are. -/
lemma processed_dataframe_ok (r0 : TransposedRecord) (rest : List TransposedRecord)
    (columns : List String)
    (h : ∀ c ∈ requiredColumns columns, c ∈ r0.header :: r0.values) :
    processed_dataframe (r0 :: rest) columns =
      .ok (((rest.map (fun r => r.header :: r.values)).map
        (mkRow (r0.header :: r0.values) columns)).take 8) := by
  have hfil : (requiredColumns columns).filter
      (fun c => !((r0.header :: r0.values).contains c)) = [] := by
    rw [List.filter_eq_nil_iff]
    intro c hc
    rw [contains_true_of_mem (h c hc)]
    simp
  simp only [processed_dataframe, pivotOf]
  rw [hfil]

/-! ## C4: per-value date failures stay local -/

/-- C4: normalization never aborts because of a date cell — whenever the
input is non-empty and every required column is present, the operation
succeeds whatever the Period Ending cells hold — and, concretely, a row
whose date is unparseable gets a null date while its other fields and all
other rows are normalized as usual. -/
theorem c4_local_date_failure :
    (∀ (r0 : TransposedRecord) (rest : List TransposedRecord) (columns : List String),
      (∀ c ∈ requiredColumns columns, c ∈ r0.header :: r0.values) →
      ∃ out, processed_dataframe (r0 :: rest) columns = .ok out ∧
        out.length = min 8 rest.length) ∧
    processed_dataframe
      [⟨"Fiscal Quarter", ["Period Ending", "Revenue", "Net Income"]⟩,
       ⟨"Q1 2024", ["garbage", "10", "1"]⟩,
       ⟨"Q4 2023", ["Dec 31, 2023", "20", "2"]⟩] [] =
      .ok [⟨none, "10", "1", [], 2024, "Q1"⟩,
           ⟨some ⟨2023, 12, 31⟩, "20", "2", [], 2023, "Q4"⟩] := by
  constructor
  · intro r0 rest columns h
    refine ⟨_, processed_dataframe_ok r0 rest columns h, ?_⟩
    simp [List.length_take]
  · rfl

theorem c4_witness :
    ∃ out, processed_dataframe
      [⟨"Fiscal Quarter", ["Period Ending", "Revenue", "Net Income"]⟩,
       ⟨"Q1 2024", ["nonsense", "10", "1"]⟩] [] = .ok out ∧
      out.length = min 8 [(⟨"Q1 2024", ["nonsense", "10", "1"]⟩ : TransposedRecord)].length :=
  c4_local_date_failure.1 ⟨"Fiscal Quarter", ["Period Ending", "Revenue", "Net Income"]⟩
    [⟨"Q1 2024", ["nonsense", "10", "1"]⟩] [] (by decide)

/-! ## C7: missing Net Income aborts normalization -/

/-- C7 counterexample: when another required column is missing alongside
Net Income, the error lists them all, not exactly the singleton list with
Net Income. -/
theorem c7_counterexample :
    processed_dataframe [⟨"Fiscal Quarter", ["Period Ending"]⟩] [] =
      .error (.missingColumns ["Revenue", "Net Income"]) ∧
    (["Revenue", "Net Income"] : List String) ≠ ["Net Income"] := by
  refine ⟨by rfl, by decide⟩

/-- C7 amended: a pivoted table lacking Net Income always aborts with a
missing-columns error whose list contains Net Income, and the list is
exactly the singleton with Net Income when every other required column
(and every requested extra column) is present; no partial table is
returned. -/
theorem c7_missing_column_abort :
    ∀ (r0 : TransposedRecord) (rest : List TransposedRecord) (columns : List String),
      "Net Income" ∉ r0.header :: r0.values →
      ∃ names, processed_dataframe (r0 :: rest) columns = .error (.missingColumns names) ∧
        "Net Income" ∈ names ∧
        (("Fiscal Quarter" ∈ r0.header :: r0.values ∧
          "Period Ending" ∈ r0.header :: r0.values ∧
          "Revenue" ∈ r0.header :: r0.values ∧
          (∀ c ∈ columns, c ∈ r0.header :: r0.values)) →
          names = ["Net Income"]) := by
  intro r0 rest columns hni
  have hmem : "Net Income" ∈ (requiredColumns columns).filter
      (fun c => !((r0.header :: r0.values).contains c)) := by
    rw [List.mem_filter]
    refine ⟨by simp [requiredColumns], ?_⟩
    rw [contains_false_of_not_mem hni]
    rfl
  cases hmc : (requiredColumns columns).filter
      (fun c => !((r0.header :: r0.values).contains c)) with
  | nil => rw [hmc] at hmem; cases hmem
  | cons m ms =>
    refine ⟨m :: ms, ?_, by rw [← hmc]; exact hmem, ?_⟩
    · simp only [processed_dataframe, pivotOf]
      rw [hmc]
    · rintro ⟨hfq, hpe, hrev, hextra⟩
      rw [← hmc]
      rw [requiredColumns, List.filter_append]
      have hx : columns.filter (fun c => !((r0.header :: r0.values).contains c)) = [] := by
        rw [List.filter_eq_nil_iff]
        intro c hc
        rw [contains_true_of_mem (hextra c hc)]
        simp
      rw [hx, List.append_nil,
        List.filter_cons_of_neg (by simp only [contains_true_of_mem hfq]; decide),
        List.filter_cons_of_neg (by simp only [contains_true_of_mem hpe]; decide),
        List.filter_cons_of_neg (by simp only [contains_true_of_mem hrev]; decide),
        List.filter_cons_of_pos (by simp only [contains_false_of_not_mem hni]; decide),
        List.filter_nil]

theorem c7_witness :
    ∃ names, processed_dataframe
        [⟨"Fiscal Quarter", ["Period Ending", "Revenue"]⟩] [] =
        .error (.missingColumns names) ∧
      "Net Income" ∈ names ∧
      (("Fiscal Quarter" ∈ ("Fiscal Quarter" : String) :: ["Period Ending", "Revenue"] ∧
        "Period Ending" ∈ ("Fiscal Quarter" : String) :: ["Period Ending", "Revenue"] ∧
        "Revenue" ∈ ("Fiscal Quarter" : String) :: ["Period Ending", "Revenue"] ∧
        (∀ c ∈ ([] : List String), c ∈ ("Fiscal Quarter" : String) :: ["Period Ending", "Revenue"])) →
        names = ["Net Income"]) :=
  c7_missing_column_abort ⟨"Fiscal Quarter", ["Period Ending", "Revenue"]⟩ [] [] (by decide)

/-! ## C8: truncation to the first 8 rows -/

/-- C8: whenever the pivoted table has all required columns and at least
8 decomposed data rows, normalization returns exactly 8 tidy rows, the
first 8 of the decomposed sequence in order. -/
theorem c8_truncation :
    ∀ (r0 : TransposedRecord) (rest : List TransposedRecord) (columns : List String),
      (∀ c ∈ requiredColumns columns, c ∈ r0.header :: r0.values) →
      8 ≤ rest.length →
      ∃ out, processed_dataframe (r0 :: rest) columns = .ok out ∧
        out.length = 8 ∧
        out = ((rest.map (fun r => r.header :: r.values)).map
          (mkRow (r0.header :: r0.values) columns)).take 8 := by
  intro r0 rest columns h hlen
  refine ⟨_, processed_dataframe_ok r0 rest columns h, ?_, rfl⟩
  simp only [List.length_take, List.length_map]
  omega

theorem c8_witness :
    ∃ out, processed_dataframe
        (⟨"Fiscal Quarter", ["Period Ending", "Revenue", "Net Income"]⟩ ::
          List.replicate 9 (⟨"Q1 2024", ["a", "b", "c"]⟩ : TransposedRecord)) [] =
        .ok out ∧
      out.length = 8 ∧
      out = (((List.replicate 9 (⟨"Q1 2024", ["a", "b", "c"]⟩ : TransposedRecord)).map
        (fun r => r.header :: r.values)).map
          (mkRow (("Fiscal Quarter" : String) :: ["Period Ending", "Revenue", "Net Income"]) [])).take 8 :=
  c8_truncation ⟨"Fiscal Quarter", ["Period Ending", "Revenue", "Net Income"]⟩
    (List.replicate 9 ⟨"Q1 2024", ["a", "b", "c"]⟩) [] (by decide) (by decide)

/-! ## C5: width filtering of data rows -/

lemma columnAt_mem {data : List (List String)} {c : Nat} {vs : List String}
    (h : columnAt data c = some vs) : ∀ v ∈ vs, ∃ r ∈ data, v ∈ r := by
  induction data generalizing vs with
  | nil =>
    simp only [columnAt] at h
    cases h
    simp
  | cons r rs ih =>
    intro v hv
    cases hr : r.get? c with
    | none =>
      simp only [columnAt, hr] at h
      exact Option.noConfusion h
    | some w =>
      cases hrs : columnAt rs c with
      | none =>
        simp only [columnAt, hr, hrs] at h
        exact Option.noConfusion h
      | some ws =>
        simp only [columnAt, hr, hrs, Option.some.injEq] at h
        subst h
        rcases List.mem_cons.1 hv with h1 | h2
        · exact ⟨r, by simp, h1 ▸ List.get?_mem hr⟩
        · obtain ⟨r', hr', hv'⟩ := ih hrs v h2
          exact ⟨r', by simp [hr'], hv'⟩

lemma buildRecords_mem {headers : List String} {data : List (List String)}
    {cs : List Nat} {recs : List TransposedRecord}
    (h : buildRecords headers data cs = some recs) :
    ∀ rec ∈ recs, ∀ v ∈ rec.values, ∃ r ∈ data, v ∈ r := by
  induction cs generalizing recs with
  | nil =>
    simp only [buildRecords] at h
    cases h
    simp
  | cons c cs ih =>
    intro rec hrec v hv
    cases hcol : columnAt data c with
    | none =>
      simp only [buildRecords, hcol] at h
      exact Option.noConfusion h
    | some vs =>
      cases hrest : buildRecords headers data cs with
      | none =>
        simp only [buildRecords, hcol, hrest] at h
        exact Option.noConfusion h
      | some recs0 =>
        simp only [buildRecords, hcol, hrest, Option.some.injEq] at h
        subst h
        rcases List.mem_cons.1 hrec with h1 | h2
        · exact columnAt_mem hcol v (by rw [h1] at hv; exact hv)
        · exact ih hrest rec h2 v hv

/-- The too-long secondary header row scenario: two headers, a three-cell
second header row, no further data rows. -/
def c5Page : RawPage := ⟨some [⟨["A", "B"], []⟩, ⟨["x", "y", "z"], []⟩], none⟩

/-- A too-short secondary header row: two headers, a one-cell second
header row. -/
def c5ShortPage : RawPage := ⟨some [⟨["A", "B"], []⟩, ⟨["x"], []⟩], none⟩

/-- C5 counterexample: the secondary-header row is prepended to the data
without any width check, so a three-cell secondary row under two headers
contributes its first cells to the transposed output instead of being
dropped. -/
theorem c5_counterexample :
    extractE c5Page = .ok ([⟨"A", ["x"]⟩, ⟨"B", ["y"]⟩], none) ∧
    (["x", "y", "z"] : List String).length ≠ (["A", "B"] : List String).length ∧
    "x" ∈ (["x", "y", "z"] : List String) := by
  refine ⟨by rfl, by decide, by decide⟩

/-- C5 amended: every transposed value comes from the `data` list, whose
rows taken from the third table row onward all pass the width filter;
the secondary-header row however is prepended without a width check, so a
longer-than-headers secondary row contributes its leading cells (concrete
instance above) and a shorter one aborts the whole extraction. -/
theorem c5_width_filtering :
    (∀ (page : RawPage) (recs : List TransposedRecord) (cur : Option String),
      extractE page = .ok (recs, cur) →
      ∀ rec ∈ recs, ∀ v ∈ rec.values, ∃ r ∈ pageData page, v ∈ r) ∧
    (∀ (headers : List String) (rest : List HtmlRow) (r : List String),
      r ∈ keptRows headers rest → r.length = headers.length) ∧
    extractE c5ShortPage = .error .malformedTable := by
  refine ⟨?_, ?_, by rfl⟩
  · rintro ⟨tbl, cur'⟩ recs cur h
    cases tbl with
    | none => simp [extractE] at h
    | some rows =>
      match rows with
      | [] => simp [extractE] at h
      | [_] => simp [extractE] at h
      | row0 :: row1 :: rest =>
        cases ht : transposeData row0.th (tableData row0.th row1.th rest) with
        | none => simp [extractE, ht] at h
        | some recs0 =>
          simp only [extractE, ht] at h
          cases h
          intro rec hrec v hv
          have := buildRecords_mem ht rec hrec v hv
          simpa [pageData] using this
  · intro headers rest r hr
    rw [keptRows] at hr
    have := (List.mem_filter.1 hr).2
    simpa using this

theorem c5_witness :
    ∃ r ∈ pageData c5Page, "x" ∈ r :=
  c5_width_filtering.1 c5Page [⟨"A", ["x"]⟩, ⟨"B", ["y"]⟩] none (by rfl)
    ⟨"A", ["x"]⟩ (by decide) "x" (by decide)

/-! ## C6: transpose and pivot -/

lemma getElem?_eq_some_getD {α : Type} (l : List α) (j : Nat) (d : α) (h : j < l.length) :
    l[j]? = some (l.getD j d) := by
  induction l generalizing j with
  | nil => simp at h
  | cons a t ih =>
    cases j with
    | zero => simp [List.getD_eq_getD_get?, List.get?_eq_getElem?]
    | succ j2 =>
      have hj2 : j2 < t.length := by simpa using h
      simpa [List.getD_eq_getD_get?, List.get?_eq_getElem?] using ih j2 hj2

lemma getD_map_of_lt {α β : Type} (l : List α) (g : α → β) (j : Nat) (d : α) (e : β)
    (h : j < l.length) : (l.map g).getD j e = g (l.getD j d) := by
  rw [List.getD_eq_getD_get?, List.get?_eq_getElem?, List.getElem?_map,
    getElem?_eq_some_getD l j d h]
  rfl

lemma getD_map_range {α : Type} (n k : Nat) (g : Nat → α) (d : α) (h : k < n) :
    ((List.range n).map g).getD k d = g k := by
  rw [getD_map_of_lt (List.range n) g k 0 d (by simpa using h)]
  congr 1
  rw [List.getD_eq_getD_get?, List.get?_eq_getElem?, List.getElem?_range h]
  rfl

lemma keptRows_length (headers : List String) (rest : List HtmlRow) :
    ∀ r ∈ keptRows headers rest, r.length = headers.length := by
  intro r hr
  rw [keptRows] at hr
  have := (List.mem_filter.1 hr).2
  simpa using this

lemma columnAt_eq_map (data : List (List String)) (c : Nat)
    (h : ∀ r ∈ data, c < r.length) :
    columnAt data c = some (data.map (fun r => r.getD c "")) := by
  induction data with
  | nil => rfl
  | cons r rs ih =>
    have h1 : r.get? c = some (r.getD c "") := by
      rw [List.get?_eq_getElem?, getElem?_eq_some_getD r c "" (h r (by simp))]
    have h2 := ih (fun r2 hr2 => h r2 (by simp [hr2]))
    simp only [columnAt, h1, h2, List.map_cons]

lemma buildRecords_eq_map (headers : List String) (data : List (List String))
    (cs : List Nat) (h : ∀ c ∈ cs, ∀ r ∈ data, c < r.length) :
    buildRecords headers data cs =
      some (cs.map fun c =>
        (⟨headers.getD c "", data.map (fun r => r.getD c "")⟩ : TransposedRecord)) := by
  induction cs with
  | nil => rfl
  | cons c cs2 ih =>
    simp only [buildRecords, columnAt_eq_map data c (h c (by simp)),
      ih (fun c2 hc2 => h c2 (by simp [hc2])), List.map_cons]

lemma transposeData_eq_map (headers : List String) (data : List (List String))
    (h : ∀ r ∈ data, headers.length ≤ r.length) :
    transposeData headers data =
      some ((List.range headers.length).map fun c =>
        (⟨headers.getD c "", data.map (fun r => r.getD c "")⟩ : TransposedRecord)) := by
  apply buildRecords_eq_map
  intro c hc r hr
  exact lt_of_lt_of_le (List.mem_range.1 hc) (h r hr)

/-- Transposing a table whose data rows all have the headers' width and
then pivoting yields the transpose of the source grid: one pivoted row per
header beyond the first, one pivoted column per data row plus one, with
the pivoted cell at row `k`, column `i` equal to the source cell at row
`i`, column `k + 1` (and the pivoted header row equal to the source's
first column). -/
lemma pivot_transpose (headers : List String) (data : List (List String))
    (hne : headers ≠ []) (hlen : ∀ r ∈ data, r.length = headers.length) :
    ∃ recs cols prows,
      transposeData headers data = some recs ∧
      pivotOf recs = some (cols, prows) ∧
      prows.length = headers.length - 1 ∧
      cols.length = data.length + 1 ∧
      (∀ r ∈ prows, r.length = data.length + 1) ∧
      (∀ i, i < cols.length →
        cols.getD i "" = ((headers :: data).getD i []).getD 0 "") ∧
      (∀ k i, k < prows.length → i < cols.length →
        (prows.getD k []).getD i "" = ((headers :: data).getD i []).getD (k + 1) "") := by
  have hle : ∀ r ∈ data, headers.length ≤ r.length :=
    fun r hr => le_of_eq (hlen r hr).symm
  obtain ⟨m, hm⟩ := Nat.exists_eq_succ_of_ne_zero
    (show headers.length ≠ 0 by simpa [List.length_eq_zero] using hne)
  have hsplit : (List.range headers.length).map
      (fun c => (⟨headers.getD c "", data.map (fun r => r.getD c "")⟩ : TransposedRecord)) =
      (⟨headers.getD 0 "", data.map (fun r => r.getD 0 "")⟩ : TransposedRecord) ::
        (List.range m).map (fun c =>
          (⟨headers.getD (c + 1) "", data.map (fun r => r.getD (c + 1) "")⟩ :
            TransposedRecord)) := by
    rw [hm, List.range_succ_eq_map, List.map_cons, List.map_map]
    rfl
  refine ⟨_, headers.getD 0 "" :: data.map (fun r => r.getD 0 ""),
    (List.range m).map (fun c => headers.getD (c + 1) "" :: data.map (fun r => r.getD (c + 1) "")),
    transposeData_eq_map headers data hle, ?_, ?_, ?_, ?_, ?_, ?_⟩
  · rw [hsplit]
    simp only [pivotOf, List.map_map]
    rfl
  · simp only [List.length_map, List.length_range, hm]
    rfl
  · simp
  · intro r hr
    obtain ⟨c, hc, rfl⟩ := List.mem_map.1 hr
    simp
  · intro i hi
    cases i with
    | zero => simp [List.getD_cons_zero]
    | succ j =>
      have hj : j < data.length := by
        simpa [List.length_map] using hi
      rw [List.getD_cons_succ, List.getD_cons_succ,
        getD_map_of_lt data _ j [] "" hj]
  · intro k i hk hi
    have hkm : k < m := by simpa [List.length_map, List.length_range] using hk
    rw [getD_map_range m k _ [] hkm]
    cases i with
    | zero => simp [List.getD_cons_zero]
    | succ j =>
      have hj : j < data.length := by
        simpa [List.length_map] using hi
      rw [List.getD_cons_succ, List.getD_cons_succ,
        getD_map_of_lt data _ j [] "" hj]

/-- C6 counterexample: with two headers and one retained data row (K = 1,
H = 2), the pivoted table has the claimed dimensions yet its data row is
the source's second column, not the source data row — the round trip
produces the transpose of the source grid, not the source itself. -/
theorem c6_counterexample :
    extractE (mkPage ["a", "b"] [] [["x", "y"]] none) =
      .ok ([⟨"a", ["x"]⟩, ⟨"b", ["y"]⟩], none) ∧
    pivotOf [⟨"a", ["x"]⟩, ⟨"b", ["y"]⟩] = some (["a", "x"], [["b", "y"]]) ∧
    ([["b", "y"]] : List (List String)) ≠ [["x", "y"]] := by
  refine ⟨by rfl, by rfl, by decide⟩

/-- C6 amended: extracting a well-formed table and pivoting reproduces the
transpose of the source grid — `H - 1` pivoted data rows and `N + 1`
pivoted columns, where `N` counts the retained data rows together with a
non-empty secondary-header row, with the pivoted cell at row `k`, column
`i` equal to the source grid cell at row `i`, column `k + 1`. -/
theorem c6_round_trip :
    ∀ (headers secondary : List String) (dataRows : List (List String)) (cur : Option String),
      headers ≠ [] →
      (secondary = [] ∨ secondary.length = headers.length) →
      ∃ recs cols prows,
        extractE (mkPage headers secondary dataRows cur) = .ok (recs, cur) ∧
        pivotOf recs = some (cols, prows) ∧
        prows.length = headers.length - 1 ∧
        cols.length = (pageData (mkPage headers secondary dataRows cur)).length + 1 ∧
        (∀ r ∈ prows, r.length = (pageData (mkPage headers secondary dataRows cur)).length + 1) ∧
        (∀ i, i < cols.length →
          cols.getD i "" =
            ((headers :: pageData (mkPage headers secondary dataRows cur)).getD i []).getD 0 "") ∧
        (∀ k i, k < prows.length → i < cols.length →
          (prows.getD k []).getD i "" =
            ((headers :: pageData (mkPage headers secondary dataRows cur)).getD i []).getD
              (k + 1) "") := by
  intro headers secondary dataRows cur hne hsec
  have hlen : ∀ r ∈ pageData (mkPage headers secondary dataRows cur),
      r.length = headers.length := by
    intro r hr
    have hr2 : r ∈ tableData headers secondary
        (dataRows.map (fun q => (⟨[], q⟩ : HtmlRow))) := hr
    rw [tableData] at hr2
    by_cases hs : secondary.isEmpty
    · rw [if_pos hs] at hr2
      exact keptRows_length _ _ r hr2
    · rw [if_neg hs] at hr2
      rcases List.mem_cons.1 hr2 with h1 | h2
      · rcases hsec with h3 | h3
        · rw [h3] at hs
          exact absurd rfl hs
        · rw [h1]
          exact h3
      · exact keptRows_length _ _ r h2
  obtain ⟨recs, cols, prows, htr, hpiv, h1, h2, h3, h4, h5⟩ :=
    pivot_transpose headers (pageData (mkPage headers secondary dataRows cur)) hne hlen
  refine ⟨recs, cols, prows, ?_, hpiv, h1, h2, h3, h4, h5⟩
  have htr2 : transposeData headers
      (tableData headers secondary (dataRows.map (fun q => (⟨[], q⟩ : HtmlRow)))) =
      some recs := htr
  simp only [extractE, mkPage]
  rw [htr2]

theorem c6_witness :
    ∃ recs cols prows,
      extractE (mkPage ["a", "b"] [] [["x", "y"]] none) = .ok (recs, none) ∧
      pivotOf recs = some (cols, prows) ∧
      prows.length = (["a", "b"] : List String).length - 1 ∧
      cols.length = (pageData (mkPage ["a", "b"] [] [["x", "y"]] none)).length + 1 ∧
      (∀ r ∈ prows, r.length = (pageData (mkPage ["a", "b"] [] [["x", "y"]] none)).length + 1) ∧
      (∀ i, i < cols.length →
        cols.getD i "" =
          ((["a", "b"] :: pageData (mkPage ["a", "b"] [] [["x", "y"]] none)).getD i []).getD
            0 "") ∧
      (∀ k i, k < prows.length → i < cols.length →
        (prows.getD k []).getD i "" =
          ((["a", "b"] :: pageData (mkPage ["a", "b"] [] [["x", "y"]] none)).getD i []).getD
            (k + 1) "") :=
  c6_round_trip ["a", "b"] [] [["x", "y"]] none (by decide) (Or.inl rfl)
